import Mathlib

/-!
Verification of the core of the ts-share daily-securities screening system:
the snapshot filter library (src/filters/atomic.py), the rule engine and its
step tracker (src/rules/base.py, src/rules/rule_dragon_pullback.py,
src/rules/rule_small_cap_limit_up.py), the local store and indicator
recomputation engine (src/services/data_sync_service.py) and the remote sync
loop (src/scripts/remote_sync.py).

Python strings are modelled as lists of characters, pandas nullable (NaN)
columns as Option, floats as rationals, and DataFrames as lists of rows.
-/

/-! ## Character-list string helpers

Python str.startswith and case-insensitive substring containment
(pandas Series.str.contains with case=False), modelled on List Char. -/

/-- Python s.startswith(p): the second list is an initial segment of the first. -/
def strStartsWith : List Char → List Char → Bool
  | _, [] => true
  | [], _ :: _ => false
  | c :: s, p :: ps => c == p && strStartsWith s ps

/-- Python s.startswith(tuple): the string starts with one of the patterns. -/
def strStartsWithAny (s : List Char) (pats : List (List Char)) : Bool :=
  pats.any (fun p => strStartsWith s p)

/-- Substring containment: some suffix of s starts with pat. -/
def strContains : List Char → List Char → Bool
  | [], pat => strStartsWith [] pat
  | c :: s, pat => strStartsWith (c :: s) pat || strContains s pat

/-- Case-insensitive "contains 'ST'" on a nullable name column, with the
pandas na=False convention: a null name never matches
(`df['名称'].str.contains('ST', case=False, na=False)`). -/
def nameHasST : Option (List Char) → Bool
  | none => false
  | some nm => strContains (nm.map Char.toUpper) ['S', 'T']

/-! ## Snapshot rows and the atomic filter library (src/filters/atomic.py)

A snapshot row carries the columns the filters under verification read:
代码 (symbol code), 名称 (display name, nullable), 涨跌幅 (daily change
percent). -/

structure SnapRow where
  code : List Char
  name : Option (List Char)
  pctChg : ℚ
deriving DecidableEq

/-- Board categories named by filter_by_exchange's exclude list:
创业板 (growth board), 科创板 (science board), 北交所 (Beijing exchange). -/
inductive Board
  | growth
  | science
  | bse
deriving DecidableEq

/-- filter_by_exchange (src/filters/atomic.py:9): drops rows whose 代码 starts
with the excluded boards' code number segments; exclude=None returns the frame
unchanged. -/
def filter_by_exchange (df : List SnapRow) (exclude : Option (List Board)) : List SnapRow :=
  match exclude with
  | none => df
  | some ex =>
    let r := df
    let r := if ex.contains Board.growth then
        r.filter (fun x => !(strStartsWith x.code ['3', '0'])) else r
    let r := if ex.contains Board.science then
        r.filter (fun x => !(strStartsWith x.code ['6', '8', '8'])) else r
    let r := if ex.contains Board.bse then
        r.filter (fun x => !(strStartsWithAny x.code
          [['4', '3'], ['8', '3'], ['8', '7'], ['8', '8'], ['8', '2'], ['9']])) else r
    r

/-- filter_by_st (src/filters/atomic.py:37): with exclude=True drops rows whose
名称 contains the ST marker case-insensitively. -/
def filter_by_st (df : List SnapRow) (exclude : Bool) : List SnapRow :=
  if !exclude then df
  else df.filter (fun r => !(nameHasST r.name))

/-- The per-row limit-up threshold assigned by filter_by_limit_up
(src/filters/atomic.py:129-139): default 9.8; codes starting 30/688 get 19.8;
codes starting 8/4/9 get 29.8; ST-marked names get 4.8 (assigned last, so it
overrides the board thresholds). -/
def limitUpThreshold (r : SnapRow) : ℚ :=
  let t : ℚ := 98 / 10
  let t := if strStartsWith r.code ['3', '0'] || strStartsWith r.code ['6', '8', '8'] then
      198 / 10 else t
  let t := if strStartsWith r.code ['8'] || strStartsWith r.code ['4']
      || strStartsWith r.code ['9'] then 298 / 10 else t
  if nameHasST r.name then 48 / 10 else t

/-- filter_by_limit_up (src/filters/atomic.py:108): keeps rows with
涨跌幅 >= their board-aware threshold. -/
def filter_by_limit_up (df : List SnapRow) : List SnapRow :=
  df.filter (fun r => limitUpThreshold r ≤ r.pctChg)

/-! Claim-side (spec-side) reformulation for C3: a board/ST category per row and
a threshold table per category, following the spec's words. -/

/-- Board/ST category of a row as the spec's threshold table reads: ST-marked
names form their own category (cf. C10), then growth/science boards by code
number segment, then Beijing-exchange-class codes, else mainboard. -/
inductive BoardCat
  | st
  | growthSci
  | beijing
  | main
deriving DecidableEq

/-- Modelled from the spec's threshold-table wording: category of a snapshot row. -/
def boardCategory (r : SnapRow) : BoardCat :=
  if nameHasST r.name then BoardCat.st
  else if strStartsWith r.code ['3', '0'] || strStartsWith r.code ['6', '8', '8'] then
    BoardCat.growthSci
  else if strStartsWith r.code ['8'] || strStartsWith r.code ['4']
      || strStartsWith r.code ['9'] then BoardCat.beijing
  else BoardCat.main

/-- The spec's threshold table: mainboard 9.8, growth/science 19.8,
Beijing-exchange-class 29.8, ST 4.8. -/
def categoryThreshold : BoardCat → ℚ
  | BoardCat.main => 98 / 10
  | BoardCat.growthSci => 198 / 10
  | BoardCat.beijing => 298 / 10
  | BoardCat.st => 48 / 10

/-! ## Lemmas about the string helpers -/

theorem strStartsWith_head (s : List Char) (p : Char) (ps : List Char)
    (h : strStartsWith s (p :: ps) = true) : s.head? = some p := by
  cases s with
  | nil => simp [strStartsWith] at h
  | cons c t =>
    simp only [strStartsWith, Bool.and_eq_true, beq_iff_eq] at h
    simp [h.1]

theorem growthSci_not_beijing (c : List Char)
    (h : (strStartsWith c ['3', '0'] || strStartsWith c ['6', '8', '8']) = true) :
    (strStartsWith c ['8'] || strStartsWith c ['4'] || strStartsWith c ['9']) = false := by
  simp only [Bool.or_eq_true] at h
  rcases h with h' | h' <;>
  · have hh := strStartsWith_head _ _ _ h'
    cases c with
    | nil => simp at hh
    | cons a t =>
      simp only [List.head?_cons, Option.some.injEq] at hh
      subst hh
      simp [strStartsWith]

/-- The per-row threshold computed by filter_by_limit_up coincides with the
spec's category-based threshold table. -/
theorem limitUpThreshold_eq_category (r : SnapRow) :
    limitUpThreshold r = categoryThreshold (boardCategory r) := by
  unfold limitUpThreshold boardCategory
  by_cases hst : nameHasST r.name
  · simp [hst, categoryThreshold]
  · by_cases h30 : (strStartsWith r.code ['3', '0'] || strStartsWith r.code ['6', '8', '8']) = true
    · have hb := growthSci_not_beijing _ h30
      simp [hst, h30, hb, categoryThreshold]
    · by_cases hbj : (strStartsWith r.code ['8'] || strStartsWith r.code ['4']
          || strStartsWith r.code ['9']) = true
      · simp [hst, h30, hbj, categoryThreshold]
      · simp [hst, h30, hbj, categoryThreshold]

/-! ## C3: limit-up boundary behaviour -/

/-- The spec's synthetic boundary snapshot: change percentages
{9.79, 9.80, 19.79, 19.80, 29.79, 29.80, 4.79, 4.80}, each tagged to the
matching board/ST category (mainboard 60-codes, growth 30-codes,
Beijing-class 43-codes, ST-marked mainboard names). -/
def c3Rows : List SnapRow :=
  [⟨['6', '0', '0', '0', '0', '1'], some ['A'], 979 / 100⟩,
   ⟨['6', '0', '0', '0', '0', '2'], some ['A'], 98 / 10⟩,
   ⟨['3', '0', '0', '0', '0', '1'], some ['B'], 1979 / 100⟩,
   ⟨['3', '0', '0', '0', '0', '2'], some ['B'], 198 / 10⟩,
   ⟨['4', '3', '0', '0', '0', '1'], some ['C'], 2979 / 100⟩,
   ⟨['4', '3', '0', '0', '0', '2'], some ['C'], 298 / 10⟩,
   ⟨['6', '0', '0', '0', '0', '3'], some ['S', 'T', 'A'], 479 / 100⟩,
   ⟨['6', '0', '0', '0', '0', '4'], some ['S', 'T', 'A'], 48 / 10⟩]

/-- The at-or-above-threshold rows of c3Rows: 9.80, 19.80, 29.80, 4.80. -/
def c3Survivors : List SnapRow :=
  [⟨['6', '0', '0', '0', '0', '2'], some ['A'], 98 / 10⟩,
   ⟨['3', '0', '0', '0', '0', '2'], some ['B'], 198 / 10⟩,
   ⟨['4', '3', '0', '0', '0', '2'], some ['C'], 298 / 10⟩,
   ⟨['6', '0', '0', '0', '0', '4'], some ['S', 'T', 'A'], 48 / 10⟩]

unseal Rat.mul Rat.inv in
/-- C3: filter_by_limit_up returns exactly the rows whose change percent meets
or exceeds their category's threshold (9.8 mainboard, 19.8 growth/science,
29.8 Beijing-exchange-class, 4.8 ST-marked); on the spec's synthetic boundary
rows exactly the at-or-above-threshold rows (9.80, 19.80, 29.80, 4.80) are
included. -/
theorem c3_limit_up_boundary :
    (∀ (df : List SnapRow) (r : SnapRow),
        r ∈ filter_by_limit_up df ↔
          r ∈ df ∧ categoryThreshold (boardCategory r) ≤ r.pctChg) ∧
    filter_by_limit_up c3Rows = c3Survivors := by
  constructor
  · intro df r
    simp only [filter_by_limit_up, List.mem_filter, decide_eq_true_eq,
      limitUpThreshold_eq_category]
  · decide

/-! ## C7: exchange/board exclusion -/

/-- Claim-side predicate: a row is excluded purely by the configured
symbol-code number-segment rules of the boards in the exclusion set. -/
def excludedByBoard (ex : List Board) (code : List Char) : Bool :=
  (ex.contains Board.growth && strStartsWith code ['3', '0']) ||
  (ex.contains Board.science && strStartsWith code ['6', '8', '8']) ||
  (ex.contains Board.bse && strStartsWithAny code
    [['4', '3'], ['8', '3'], ['8', '7'], ['8', '8'], ['8', '2'], ['9']])

theorem mem_cond_filter (l : List SnapRow) (b : Bool) (p : SnapRow → Bool) (r : SnapRow) :
    r ∈ (if b then l.filter p else l) ↔ r ∈ l ∧ (b = true → p r = true) := by
  cases b <;> simp [List.mem_filter]

/-- The spec's five-code snapshot for the exchange-exclusion test. -/
def c7Rows : List SnapRow :=
  [⟨['3', '0', '0', '0', '0', '1'], none, 0⟩,
   ⟨['6', '8', '8', '0', '0', '1'], none, 0⟩,
   ⟨['4', '3', '0', '0', '0', '1'], none, 0⟩,
   ⟨['6', '0', '0', '0', '0', '0'], none, 0⟩,
   ⟨['0', '0', '0', '0', '0', '1'], none, 0⟩]

/-- C7: filtering codes {300001, 688001, 430001, 600000, 000001} with the
exclusion set {growth, science, BSE} keeps exactly {600000, 000001}; in
general a row survives filter_by_exchange iff its code matches no excluded
board's configured code number segments. -/
theorem c7_exchange_exclusion :
    filter_by_exchange c7Rows (some [Board.growth, Board.science, Board.bse]) =
      [⟨['6', '0', '0', '0', '0', '0'], none, 0⟩, ⟨['0', '0', '0', '0', '0', '1'], none, 0⟩] ∧
    (∀ (df : List SnapRow) (ex : List Board) (r : SnapRow),
        r ∈ filter_by_exchange df (some ex) ↔
          r ∈ df ∧ excludedByBoard ex r.code = false) := by
  constructor
  · decide
  · intro df ex r
    simp only [filter_by_exchange]
    rw [mem_cond_filter, mem_cond_filter, mem_cond_filter]
    rcases Bool.eq_false_or_eq_true (ex.contains Board.growth) with hg | hg <;>
    rcases Bool.eq_false_or_eq_true (ex.contains Board.science) with hs | hs <;>
    rcases Bool.eq_false_or_eq_true (ex.contains Board.bse) with hb | hb <;>
    simp [excludedByBoard, hg, hs, hb, and_assoc, Bool.not_eq_true']

/-! ## C10: ST threshold precedence in filter_by_limit_up -/

/-- C10: an ST-marked name gets the 4.8 threshold regardless of its code's
board, and so qualifies at a change percent of 4.8 even on a growth-board
code. -/
theorem c10_st_threshold_precedence (df : List SnapRow) (r : SnapRow)
    (hst : nameHasST r.name = true) :
    limitUpThreshold r = 48 / 10 ∧
    (r ∈ filter_by_limit_up df ↔ r ∈ df ∧ (48 / 10 : ℚ) ≤ r.pctChg) := by
  have ht : limitUpThreshold r = 48 / 10 := by
    simp [limitUpThreshold, hst]
  refine ⟨ht, ?_⟩
  simp only [filter_by_limit_up, List.mem_filter, decide_eq_true_eq, ht]

/-- A growth-board (300-code) row with an ST-marked name at exactly 4.8
percent change. -/
def c10Row : SnapRow := ⟨['3', '0', '0', '0', '0', '1'], some ['S', 'T', 'X'], 48 / 10⟩

unseal Rat.mul Rat.inv in
/-- Witness for C10: the 30-code ST row at 4.80 gets the 4.8 threshold and is
included by filter_by_limit_up. -/
theorem c10_st_threshold_precedence_witness :
    nameHasST c10Row.name = true ∧ limitUpThreshold c10Row = 48 / 10 ∧
      c10Row ∈ filter_by_limit_up [c10Row] :=
  ⟨by decide,
   (c10_st_threshold_precedence [c10Row] c10Row (by decide)).1,
   ((c10_st_threshold_precedence [c10Row] c10Row (by decide)).2).mpr
     ⟨by decide, by decide⟩⟩

/-! ## C4: the step tracker (src/rules/base.py)

StepTracker.start(df) records len(df) as the running count and clears the
step list; record(name, df, desc) appends a StepResult whose before_count is
the running count, after_count is len(df) and filtered_count their (integer)
difference, then updates the running count. -/

structure StepResult where
  step_name : List Char
  before_count : Nat
  after_count : Nat
  filtered_count : ℤ
  description : List Char
deriving DecidableEq

structure StepTracker where
  steps : List StepResult
  current_count : Nat
deriving DecidableEq

/-- StepTracker.start (src/rules/base.py:28). -/
def StepTracker.start (df : List SnapRow) : StepTracker :=
  ⟨[], df.length⟩

/-- StepTracker.record (src/rules/base.py:33). -/
def StepTracker.record (t : StepTracker) (nm : List Char) (df : List SnapRow)
    (desc : List Char) : StepTracker :=
  ⟨t.steps ++ [⟨nm, t.current_count, df.length,
      (t.current_count : ℤ) - (df.length : ℤ), desc⟩],
   df.length⟩

/-- A sequence of record calls: step name, current frame, description. -/
def TrackerCall := List Char × List SnapRow × List Char

/-- One start followed by any number of record calls. -/
def runTracker (df0 : List SnapRow) (calls : List TrackerCall) : StepTracker :=
  calls.foldl (fun t c => t.record c.1 c.2.1 c.2.2) (StepTracker.start df0)

/-- Adjacent steps are chained: each step's before_count is the previous
step's after_count. -/
def chainedOk : List StepResult → Bool
  | [] => true
  | [_] => true
  | a :: b :: t => (a.after_count == b.before_count) && chainedOk (b :: t)

theorem chainedOk_append_singleton (l : List StepResult) (s : StepResult)
    (hl : chainedOk l = true)
    (hlast : ∀ a, l.getLast? = some a → a.after_count = s.before_count) :
    chainedOk (l ++ [s]) = true := by
  induction l with
  | nil => simp [chainedOk]
  | cons a l ih =>
    cases l with
    | nil =>
      have ha := hlast a (by simp)
      simp [chainedOk, ha]
    | cons b l' =>
      simp only [chainedOk, Bool.and_eq_true] at hl
      have := ih hl.2 (fun x hx => hlast x (by rw [List.getLast?_cons_cons]; exact hx))
      simp only [List.cons_append, chainedOk, Bool.and_eq_true]
      exact ⟨hl.1, by simpa using this⟩

theorem tracker_fold_current (calls : List TrackerCall) (t : StepTracker) :
    (calls.foldl (fun t c => t.record c.1 c.2.1 c.2.2) t).current_count =
      ((calls.map (fun c => c.2.1.length)).getLast?).getD t.current_count := by
  induction calls generalizing t with
  | nil => simp
  | cons c cs ih =>
    rw [List.foldl_cons, ih]
    cases cs with
    | nil => simp [StepTracker.record]
    | cons c' cs' =>
      simp only [List.map_cons]
      cases h : (c'.2.1.length :: List.map (fun c => c.2.1.length) cs').getLast? with
      | none => simp [List.getLast?_eq_none_iff] at h
      | some v => simp [h]

theorem tracker_fold_sum (calls : List TrackerCall) (t : StepTracker) :
    (((calls.foldl (fun t c => t.record c.1 c.2.1 c.2.2) t).steps).map
        StepResult.filtered_count).sum =
      ((t.steps.map StepResult.filtered_count).sum + (t.current_count : ℤ)) -
        ((calls.foldl (fun t c => t.record c.1 c.2.1 c.2.2) t).current_count : ℤ) := by
  induction calls generalizing t with
  | nil => simp
  | cons c cs ih =>
    rw [List.foldl_cons, ih]
    simp only [StepTracker.record]
    rw [List.map_append, List.sum_append]
    simp
    ring

theorem tracker_fold_chained (calls : List TrackerCall) (t : StepTracker)
    (hc : chainedOk t.steps = true)
    (hlink : ∀ a, t.steps.getLast? = some a → a.after_count = t.current_count) :
    chainedOk ((calls.foldl (fun t c => t.record c.1 c.2.1 c.2.2) t).steps) = true := by
  induction calls generalizing t with
  | nil => exact hc
  | cons c cs ih =>
    rw [List.foldl_cons]
    refine ih _ ?_ ?_
    · refine chainedOk_append_singleton _ _ hc ?_
      intro a ha
      exact hlink a ha
    · intro a ha
      simp only [StepTracker.record] at ha ⊢
      rw [List.getLast?_append] at ha
      simp only [List.getLast?_singleton, Option.or_some] at ha
      cases ha
      rfl

/-- C4: for one start followed by any number of record calls, the recorded
filtered_count values sum to the initial count minus the final count, and each
step's before_count equals the previous step's after_count. -/
theorem c4_step_tracker_conservation (df0 : List SnapRow) (calls : List TrackerCall) :
    (((runTracker df0 calls).steps).map StepResult.filtered_count).sum =
      (df0.length : ℤ) -
        (((calls.map (fun c => c.2.1.length)).getLast?).getD df0.length : ℤ) ∧
    chainedOk (runTracker df0 calls).steps = true := by
  constructor
  · rw [runTracker, tracker_fold_sum, tracker_fold_current]
    simp only [StepTracker.start, List.map_nil, List.sum_nil, zero_add]
    cases h : calls.getLast? <;> simp [List.getLast?_map, h]
  · exact tracker_fold_chained calls (StepTracker.start df0) (by simp [StepTracker.start, chainedOk])
      (by simp [StepTracker.start])

/-! ## C5: keyed upsert into the local store (src/services/data_sync_service.py:452)

save_to_database writes each merged row with
REPLACE INTO daily_data (...22 base columns...) VALUES (...): SQLite deletes
any existing row with the same PRIMARY KEY (日期, 代码) and inserts the new
one; columns outside the column list (the derived qfq/ma/vma columns) are
reset to NULL by the fresh insert. The table is modelled as a row list, a
row as its key plus the 20 non-key base-column values and the 11 derived
column values. -/

structure DbRow where
  date : ℕ
  code : ℕ
  saved : List (Option ℚ)
  derived : List (Option ℚ)
deriving DecidableEq

structure BatchRow where
  date : ℕ
  code : ℕ
  saved : List (Option ℚ)
deriving DecidableEq

/-- The PRIMARY KEY (日期, 代码). -/
def dbKey (r : DbRow) : ℕ × ℕ := (r.date, r.code)

def keyMatches (r : DbRow) (x : BatchRow) : Bool :=
  r.date == x.date && r.code == x.code

/-- The stored row a fresh REPLACE produces: derived columns are NULL. -/
def newDbRow (x : BatchRow) : DbRow :=
  ⟨x.date, x.code, x.saved, List.replicate 11 none⟩

/-- One REPLACE INTO: drop the conflicting keyed row, insert the new one. -/
def replaceInto (t : List DbRow) (x : BatchRow) : List DbRow :=
  t.filter (fun r => !(keyMatches r x)) ++ [newDbRow x]

/-- save_to_database: executemany of REPLACE INTO over the batch. -/
def save_to_database (t : List DbRow) (batch : List BatchRow) : List DbRow :=
  batch.foldl replaceInto t

/-- A stored row whose key matches no batch row. -/
def keyFree (batch : List BatchRow) (r : DbRow) : Bool :=
  !(batch.any (fun x => keyMatches r x))

theorem save_decomp (batch : List BatchRow) (t : List DbRow) :
    save_to_database t batch = t.filter (keyFree batch) ++ save_to_database [] batch := by
  induction batch generalizing t with
  | nil =>
    show t = t.filter (keyFree []) ++ ([] : List DbRow)
    rw [List.append_nil]
    exact (List.filter_eq_self.mpr (fun r _ => by simp [keyFree])).symm
  | cons x b ih =>
    have hpred : ∀ u : List DbRow,
        (u.filter (fun r => !(keyMatches r x))).filter (keyFree b) =
          u.filter (keyFree (x :: b)) := by
      intro u
      rw [List.filter_filter]
      apply List.filter_congr
      intro r _
      simp [keyFree, keyMatches, List.any_cons, Bool.not_or, Bool.and_comm]
    have lhs : save_to_database t (x :: b) =
        (t.filter (fun r => !(keyMatches r x))).filter (keyFree b) ++
          ([newDbRow x].filter (keyFree b) ++ save_to_database [] b) := by
      show save_to_database (replaceInto t x) b = _
      rw [ih, replaceInto, List.filter_append, List.append_assoc]
    have rhs : save_to_database ([] : List DbRow) (x :: b) =
        [newDbRow x].filter (keyFree b) ++ save_to_database [] b := by
      show save_to_database (replaceInto [] x) b = _
      rw [ih, replaceInto]
      simp
    rw [lhs, rhs, hpred]

theorem save_mem_cases (batch : List BatchRow) (t : List DbRow) (r : DbRow)
    (h : r ∈ save_to_database t batch) :
    r ∈ t ∨ ∃ x ∈ batch, r = newDbRow x := by
  induction batch generalizing t with
  | nil => exact Or.inl h
  | cons x b ih =>
    rcases ih (replaceInto t x) h with hmem | ⟨y, hy, hr⟩
    · rcases List.mem_append.mp hmem with hf | hn
      · exact Or.inl (List.mem_of_mem_filter hf)
      · exact Or.inr ⟨x, List.mem_cons_self x b, by simpa using hn⟩
    · exact Or.inr ⟨y, List.mem_cons_of_mem x hy, hr⟩

theorem keyFree_newDbRow (batch : List BatchRow) (x : BatchRow) (hx : x ∈ batch) :
    keyFree batch (newDbRow x) = false := by
  have : batch.any (fun y => keyMatches (newDbRow x) y) = true :=
    List.any_eq_true.mpr ⟨x, hx, by simp [keyMatches, newDbRow]⟩
  simp [keyFree, this]

theorem replaceInto_nodup (t : List DbRow) (x : BatchRow)
    (h : (t.map dbKey).Nodup) : ((replaceInto t x).map dbKey).Nodup := by
  rw [replaceInto, List.map_append]
  rw [List.nodup_append]
  refine ⟨?_, by simp, ?_⟩
  · exact List.Sublist.nodup (List.Sublist.map dbKey (List.filter_sublist t)) h
  · intro k hk
    simp only [List.map_cons, List.map_nil]
    rcases List.mem_map.mp hk with ⟨r, hr, hkey⟩
    have hpred := List.of_mem_filter hr
    simp only [Bool.not_eq_true', keyMatches, Bool.and_eq_false_iff, beq_eq_false_iff_ne] at hpred
    intro hk1
    rw [List.mem_singleton] at hk1
    rw [← hkey] at hk1
    simp only [dbKey, newDbRow, Prod.mk.injEq] at hk1
    rcases hpred with hp | hp <;> exact hp (by simp [hk1.1, hk1.2])

/-- C5: applying save_to_database twice with the same batch leaves the table
with the same final contents as applying it once, and the PRIMARY KEY
(trade_date, symbol) uniqueness is preserved so no duplicate keyed rows
appear. -/
theorem c5_upsert_idempotent (t : List DbRow) (batch : List BatchRow) :
    save_to_database (save_to_database t batch) batch = save_to_database t batch ∧
    ((t.map dbKey).Nodup → ((save_to_database t batch).map dbKey).Nodup) := by
  constructor
  · have hnil : (save_to_database ([] : List DbRow) batch).filter (keyFree batch) = [] := by
      rw [List.filter_eq_nil_iff]
      intro r hr
      rcases save_mem_cases batch [] r hr with hmem | ⟨x, hx, hr'⟩
      · cases hmem
      · rw [hr']
        simp [keyFree_newDbRow batch x hx]
    rw [save_decomp batch (save_to_database t batch), save_decomp batch t,
      List.filter_append, hnil, List.append_nil, List.filter_filter]
    congr 1
    apply List.filter_congr
    intro r _
    simp
  · intro hnodup
    induction batch generalizing t with
    | nil => exact hnodup
    | cons x b ih =>
      exact ih (replaceInto t x) (replaceInto_nodup t x hnodup)

/-- A small initial table and batch used as the concrete C5 witness input. -/
def c5Table : List DbRow := [⟨1, 1, [some 1], [none]⟩, ⟨1, 2, [some 2], [none]⟩]

def c5Batch : List BatchRow := [⟨1, 1, [some 5]⟩, ⟨2, 3, [some 6]⟩]

/-- Witness for C5 at a concrete table and batch with distinct stored keys. -/
theorem c5_upsert_idempotent_witness :
    save_to_database (save_to_database c5Table c5Batch) c5Batch =
        save_to_database c5Table c5Batch ∧
      ((save_to_database c5Table c5Batch).map dbKey).Nodup :=
  ⟨(c5_upsert_idempotent c5Table c5Batch).1,
   (c5_upsert_idempotent c5Table c5Batch).2 (by decide)⟩

/-! ## C8: per-symbol rule-evaluation exceptions are isolated

Both RuleDragonPullback.apply (src/rules/rule_dragon_pullback.py:97-124) and
RuleSmallCapLimitUp.apply (src/rules/rule_small_cap_limit_up.py:122-150) run
the same loop shape over candidate rows: a try block evaluates a per-symbol
check and appends the symbol's code to valid_codes when it passes; `except`
logs and continues, so a raising symbol is simply not appended; finally the
frame is restricted with isin(valid_codes). The per-symbol body is modelled
as an arbitrary fallible check returning Except (exception) Bool. -/

/-- The valid_codes list built by the loop: codes whose check returned ok
true; a check that raises (Except.error) or returns false contributes
nothing and the loop continues. -/
def historyStepValidCodes (chk : SnapRow → Except ℕ Bool) (rows : List SnapRow) :
    List (List Char) :=
  rows.filterMap fun r =>
    match chk r with
    | Except.ok true => some r.code
    | Except.ok false => none
    | Except.error _ => none

/-- The result frame: result[result['代码'].isin(valid_codes)]. -/
def applyHistoryStep (chk : SnapRow → Except ℕ Bool) (rows : List SnapRow) :
    List SnapRow :=
  rows.filter (fun r => decide (r.code ∈ historyStepValidCodes chk rows))

/-- C8: with per-row distinct codes, a row survives the history step iff its
own check returned ok true; a symbol whose check raises is excluded while
every other symbol is evaluated normally, so one raising symbol never aborts
the run. -/
theorem c8_exception_isolated (chk : SnapRow → Except ℕ Bool)
    (rows : List SnapRow) (r : SnapRow)
    (hnodup : (rows.map SnapRow.code).Nodup) (hr : r ∈ rows) :
    r ∈ applyHistoryStep chk rows ↔ chk r = Except.ok true := by
  rw [applyHistoryStep, List.mem_filter]
  simp only [decide_eq_true_eq]
  constructor
  · rintro ⟨-, hmem⟩
    rcases List.mem_filterMap.mp hmem with ⟨r', hr', hok⟩
    have hcode : r'.code = r.code := by
      rcases h : chk r' with e | b
      · rw [h] at hok; cases hok
      · cases b with
        | true => rw [h] at hok; simpa using hok
        | false => rw [h] at hok; cases hok
    have : r' = r := List.inj_on_of_nodup_map hnodup hr' hr hcode
    subst this
    rcases h : chk r' with e | b
    · rw [h] at hok; cases hok
    · cases b with
      | true => rfl
      | false => rw [h] at hok; cases hok
  · intro hok
    refine ⟨hr, List.mem_filterMap.mpr ⟨r, hr, ?_⟩⟩
    rw [hok]

/-- Concrete candidate whose per-symbol check succeeds. -/
def c8RowOk : SnapRow := ⟨['6', '0', '0'], none, 0⟩

/-- Concrete candidate whose per-symbol check raises. -/
def c8RowBad : SnapRow := ⟨['0', '0', '1'], none, 0⟩

def c8Rows : List SnapRow := [c8RowOk, c8RowBad]

/-- A per-symbol check that passes c8RowOk and raises on everything else. -/
def c8Check : SnapRow → Except ℕ Bool := fun r =>
  if r.code = ['6', '0', '0'] then Except.ok true else Except.error 0

/-- Witness for C8: the raising symbol is excluded, the healthy symbol is
kept, and the run completes. -/
theorem c8_exception_isolated_witness :
    c8RowOk ∈ applyHistoryStep c8Check c8Rows ∧
      c8RowBad ∉ applyHistoryStep c8Check c8Rows :=
  ⟨(c8_exception_isolated c8Check c8Rows c8RowOk (by decide) (by decide)).mpr (by rfl),
   fun hmem => by
     have hok := (c8_exception_isolated c8Check c8Rows c8RowBad
       (by decide) (by decide)).mp hmem
     simp [c8Check, c8RowBad] at hok⟩

/-! ## The indicator recomputation engine
(DataSyncService.recompute_technical_indicators,
src/services/data_sync_service.py:245-316)

The engine loads the whole daily_data table ordered by (代码, 日期), takes
per symbol the last non-null 复权因子 as base factor, sets
adj_ratio = 复权因子 / base_factor where 收盘, 复权因子 and base factor are
all non-null and 1.0 otherwise, writes qfq_收盘 = round(收盘 × adj_ratio, 2)
with a fillna(收盘) pass (qfq_开盘/最高/最低 are computed identically and are
not modelled separately), and computes per-symbol rolling means of qfq_收盘
(windows 5/10/20/60, rounded to 2 decimals) and of 成交量 (windows 5/10/20,
rounded to whole units); a rolling window shorter than its period, or one
containing a null, yields NULL, as pandas rolling(n).mean() does.

A table is modelled as the (代码, 日期)-sorted list of rows the engine's
SQL query returns, so a symbol's rows appear in trade-date order. Rounding
round(x, k) is modelled half-up; the claims compare the stored values with
the same rounding function, so the tie-breaking convention is immaterial. -/

structure DailyRec where
  code : ℕ
  date : ℕ
  close : Option ℚ
  volume : Option ℚ
  factor : Option ℚ
deriving DecidableEq

/-- Rounding to 2 decimal places. -/
def round2 (q : ℚ) : ℚ := ((⌊q * 100 + 1 / 2⌋ : ℤ) : ℚ) / 100

/-- Rounding to whole units. -/
def round0 (q : ℚ) : ℚ := ((⌊q + 1 / 2⌋ : ℤ) : ℚ)

/-- The rows of one symbol, in stored (trade-date) order: the per-symbol
groups of groupby('代码') on the (代码, 日期)-ordered frame. -/
def symbolRows (t : List DailyRec) (c : ℕ) : List DailyRec :=
  t.filter (fun r => r.code == c)

/-- base_factor of a symbol: the last non-null 复权因子 of its ordered series
(df[df['复权因子'].notnull()].groupby('代码')['复权因子'].last()). -/
def base_factor (t : List DailyRec) (c : ℕ) : Option ℚ :=
  ((symbolRows t c).filterMap DailyRec.factor).getLast?

/-- adj_ratio of a row: factor / base_factor when 收盘, 复权因子 and the base
factor are all non-null, else the 1.0 fallback. -/
def adjCoeff (b : Option ℚ) (r : DailyRec) : ℚ :=
  match r.close, r.factor, b with
  | some _, some f, some bf => f / bf
  | _, _, _ => 1

/-- qfq_收盘 of a row: round(收盘 × adj_ratio, 2), then fillna(收盘) (which
can only refill a null, so a null 收盘 stays null). -/
def qfqClose (b : Option ℚ) (r : DailyRec) : Option ℚ :=
  match r.close.map (fun cl => round2 (cl * adjCoeff b r)) with
  | some v => some v
  | none => r.close

/-- The per-symbol qfq_收盘 column. -/
def qfqSeries (t : List DailyRec) (c : ℕ) : List (Option ℚ) :=
  (symbolRows t c).map (qfqClose (base_factor t c))

/-- The per-symbol 成交量 column. -/
def volSeries (t : List DailyRec) (c : ℕ) : List (Option ℚ) :=
  (symbolRows t c).map DailyRec.volume

/-- All values of a nullable window, when none is null. -/
def seqOpt : List (Option ℚ) → Option (List ℚ)
  | [] => some []
  | none :: _ => none
  | some x :: rest => (seqOpt rest).map (fun l => x :: l)

/-- The trailing n-value window ending at position i. -/
def windowEnd (s : List (Option ℚ)) (n i : ℕ) : List (Option ℚ) :=
  (s.take (i + 1)).drop (i + 1 - n)

/-- pandas Series.rolling(n).mean(): at each position, the mean of the
trailing n values, NULL while fewer than n positions exist or when the
window contains a NULL. -/
def rollingMean (n : ℕ) (s : List (Option ℚ)) : List (Option ℚ) :=
  (List.range s.length).map fun i =>
    if i + 1 < n then none
    else (seqOpt (windowEnd s n i)).map (fun vs => vs.sum / (n : ℚ))

/-- The stored ma_n column of a symbol (rolling mean of qfq_收盘, rounded to
2 decimals). -/
def maSeries (t : List DailyRec) (c n : ℕ) : List (Option ℚ) :=
  (rollingMean n (qfqSeries t c)).map (Option.map round2)

/-- The stored vma_n column of a symbol (rolling mean of 成交量, rounded to
whole units). -/
def vmaSeries (t : List DailyRec) (c n : ℕ) : List (Option ℚ) :=
  (rollingMean n (volSeries t c)).map (Option.map round0)

/-! Claim-side definitions for C1, following the spec's words. -/

/-- The row with the greatest trade date (preferring the later row on a tie,
which cannot occur under the (日期, 代码) primary key). -/
def maxDateRow : List DailyRec → Option DailyRec
  | [] => none
  | r :: rest =>
    match maxDateRow rest with
    | none => some r
    | some m => if m.date < r.date then some r else some m

/-- Modelled from the spec: the most recent non-null adjustment factor of the
symbol across its entire stored history ordered by trade date. -/
def latestFactorSpec (t : List DailyRec) (c : ℕ) : Option ℚ :=
  (maxDateRow ((symbolRows t c).filter (fun r => r.factor.isSome))).bind DailyRec.factor

/-- A symbol's rows carry strictly increasing trade dates. -/
def dateSorted (l : List DailyRec) : Prop :=
  l.Pairwise (fun a b => a.date < b.date)

theorem maxDateRow_sorted (l : List DailyRec)
    (h : l.Pairwise (fun a b => a.date < b.date)) : maxDateRow l = l.getLast? := by
  induction l with
  | nil => rfl
  | cons r rest ih =>
    rcases List.pairwise_cons.mp h with ⟨hr, htail⟩
    cases rest with
    | nil => rfl
    | cons b l' =>
      cases hm : (b :: l').getLast? with
      | none => simp [List.getLast?_eq_none_iff] at hm
      | some m =>
        have hmem : m ∈ b :: l' := by
          have := List.getLast?_eq_getLast (b :: l') (by simp)
          rw [this] at hm
          cases hm
          exact List.getLast_mem _
        have hlt : r.date < m.date := hr m hmem
        have h1 : maxDateRow (r :: b :: l') = some m := by
          show (match maxDateRow (b :: l') with
            | none => some r
            | some mm => if mm.date < r.date then some r else some mm) = some m
          rw [ih htail, hm]
          exact if_neg (by omega)
        rw [h1, List.getLast?_cons_cons, hm]

theorem filterMap_factor_reverse (l : List DailyRec) :
    (l.reverse).filterMap DailyRec.factor = (l.filterMap DailyRec.factor).reverse := by
  induction l with
  | nil => rfl
  | cons a l ih =>
    cases h : a.factor with
    | none => simp [List.reverse_cons, List.filterMap_append, ih, List.filterMap_cons, h]
    | some v => simp [List.reverse_cons, List.filterMap_append, ih, List.filterMap_cons, h]

theorem filter_factor_reverse (l : List DailyRec) :
    (l.reverse).filter (fun r => r.factor.isSome) =
      (l.filter (fun r => r.factor.isSome)).reverse := by
  induction l with
  | nil => rfl
  | cons a l ih =>
    cases h : a.factor with
    | none => simp [List.reverse_cons, List.filter_append, ih, List.filter_cons, h]
    | some v => simp [List.reverse_cons, List.filter_append, ih, List.filter_cons, h]

theorem head?_filterMap_factor (l : List DailyRec) :
    (l.filterMap DailyRec.factor).head? =
      ((l.filter (fun r => r.factor.isSome)).head?).bind DailyRec.factor := by
  induction l with
  | nil => rfl
  | cons a l ih =>
    cases h : a.factor with
    | none => simpa [List.filterMap_cons, List.filter_cons, h] using ih
    | some v => simp [List.filterMap_cons, List.filter_cons, h]

theorem getLast?_filterMap_factor (l : List DailyRec) :
    (l.filterMap DailyRec.factor).getLast? =
      ((l.filter (fun r => r.factor.isSome)).getLast?).bind DailyRec.factor := by
  rw [← List.head?_reverse, ← filterMap_factor_reverse, head?_filterMap_factor,
    filter_factor_reverse, List.head?_reverse]

/-- Under strictly increasing per-symbol trade dates (the stored order), the
last non-null factor the engine picks is the spec's most recent non-null
factor. -/
theorem base_factor_eq_spec (t : List DailyRec) (c : ℕ)
    (hs : dateSorted (symbolRows t c)) : base_factor t c = latestFactorSpec t c := by
  rw [base_factor, latestFactorSpec, getLast?_filterMap_factor, maxDateRow_sorted]
  exact List.Pairwise.sublist (List.filter_sublist _) hs

/-- A two-day, one-symbol table: day 1 has close 1.239 and no adjustment
factor, day 2 has a null close and factor 1. -/
def c1Table : List DailyRec :=
  [⟨7, 1, some (1239 / 1000), some 10, none⟩,
   ⟨7, 2, none, some 10, some 1⟩]

unseal Rat.mul Rat.inv Rat.add in
/-- Counterexample for C1: on day 1 the factor is null, so the engine keeps
adj_ratio 1 but still rounds, storing round(1.239, 2) = 1.24, not the raw
close 1.239 that the claim requires; on day 2 the raw close is null and the
stored adjusted close stays null, contradicting "it is never left null". -/
theorem c1_counterexample :
    qfqSeries c1Table 7 = [some (124 / 100), none] ∧
      (124 / 100 : ℚ) ≠ 1239 / 1000 := by
  constructor
  · decide
  · decide

/-- C1 (amended): with raw close, factor and base factor all non-null the
stored adjusted close is round(close × factor / base_factor, 2), where the
engine's base factor is the spec's most recent non-null factor of the
symbol's date-ordered history; when the factor or base factor is null the
ratio falls back to 1 and the stored value is round(close, 2); a null raw
close stays null. -/
theorem c1_adjusted_close (t : List DailyRec) (c i : ℕ) (r : DailyRec)
    (hr : (symbolRows t c).get? i = some r) :
    (∀ cl f bf, r.close = some cl → r.factor = some f → base_factor t c = some bf →
        (qfqSeries t c).get? i = some (some (round2 (cl * f / bf)))) ∧
    (∀ cl, r.close = some cl → (r.factor = none ∨ base_factor t c = none) →
        (qfqSeries t c).get? i = some (some (round2 cl))) ∧
    (r.close = none → (qfqSeries t c).get? i = some none) ∧
    (dateSorted (symbolRows t c) → base_factor t c = latestFactorSpec t c) := by
  have hbase : (qfqSeries t c).get? i = some (qfqClose (base_factor t c) r) := by
    rw [qfqSeries, List.get?_map, hr]
    rfl
  refine ⟨?_, ?_, ?_, fun hs => base_factor_eq_spec t c hs⟩
  · intro cl f bf hcl hf hbf
    rw [hbase]
    simp only [qfqClose, adjCoeff, hcl, hf, hbf, Option.map_some']
    rw [mul_div_assoc]
  · intro cl hcl hnone
    rw [hbase]
    rcases hnone with hf | hbf
    · simp only [qfqClose, adjCoeff, hcl, hf, Option.map_some', mul_one]
    · rw [hbf]
      cases hf : r.factor with
      | none => simp only [qfqClose, adjCoeff, hcl, hf, Option.map_some', mul_one]
      | some f => simp only [qfqClose, adjCoeff, hcl, hf, Option.map_some', mul_one]
  · intro hcl
    rw [hbase]
    simp [qfqClose, hcl]

/-- A two-day, one-symbol table with closes 10 and 20 and factors 2 and 4. -/
def c1WitnessTable : List DailyRec :=
  [⟨1, 1, some 10, some 100, some 2⟩, ⟨1, 2, some 20, some 200, some 4⟩]

unseal Rat.mul Rat.inv Rat.add in
/-- Witness for C1 (amended) at the concrete table: the day-1 adjusted close
is round(10 × 2 / 4, 2) and the engine's base factor matches the spec's. -/
theorem c1_adjusted_close_witness :
    (qfqSeries c1WitnessTable 1).get? 0 = some (some (round2 (10 * 2 / 4))) ∧
      base_factor c1WitnessTable 1 = latestFactorSpec c1WitnessTable 1 :=
  ⟨(c1_adjusted_close c1WitnessTable 1 0 ⟨1, 1, some 10, some 100, some 2⟩
      (by decide)).1 10 2 4 rfl rfl (by decide),
   (c1_adjusted_close c1WitnessTable 1 0 ⟨1, 1, some 10, some 100, some 2⟩
      (by decide)).2.2.2
      (by simp [dateSorted, c1WitnessTable, symbolRows, List.pairwise_cons])⟩

theorem rollingMean_get? (s : List (Option ℚ)) (n i : ℕ) (hi : i < s.length) :
    (rollingMean n s).get? i = some (if i + 1 < n then none
      else (seqOpt (windowEnd s n i)).map (fun vs => vs.sum / (n : ℚ))) := by
  rw [rollingMean, List.get?_map, List.get?_range hi]
  rfl

/-- C2: for every symbol series position i (so i+1 observations exist up to
and including that date) and window n, the stored ma_n/vma_n value is NULL
when fewer than n observations exist, and otherwise — whenever the trailing
n values are all present — equals their arithmetic mean, rounded to 2
decimals for price averages and to whole units for volume averages.  The
engine instantiates n at 5/10/20/60 for ma and 5/10/20 for vma. -/
theorem c2_moving_average_definedness (t : List DailyRec) (c n i : ℕ)
    (hi : i < (symbolRows t c).length) :
    (i + 1 < n →
      (maSeries t c n).get? i = some none ∧ (vmaSeries t c n).get? i = some none) ∧
    (n ≤ i + 1 →
      (∀ vs, seqOpt (windowEnd (qfqSeries t c) n i) = some vs →
          (maSeries t c n).get? i = some (some (round2 (vs.sum / (n : ℚ))))) ∧
      (∀ vs, seqOpt (windowEnd (volSeries t c) n i) = some vs →
          (vmaSeries t c n).get? i = some (some (round0 (vs.sum / (n : ℚ)))))) := by
  have hq : i < (qfqSeries t c).length := by
    rw [qfqSeries, List.length_map]; exact hi
  have hv : i < (volSeries t c).length := by
    rw [volSeries, List.length_map]; exact hi
  constructor
  · intro hlt
    constructor
    · rw [maSeries, List.get?_map, rollingMean_get? _ _ _ hq, if_pos hlt]; rfl
    · rw [vmaSeries, List.get?_map, rollingMean_get? _ _ _ hv, if_pos hlt]; rfl
  · intro hge
    constructor
    · intro vs hvs
      rw [maSeries, List.get?_map, rollingMean_get? _ _ _ hq, if_neg (by omega), hvs]
      rfl
    · intro vs hvs
      rw [vmaSeries, List.get?_map, rollingMean_get? _ _ _ hv, if_neg (by omega), hvs]
      rfl

/-- A two-day, one-symbol table with closes 10 and 20, volumes 100 and 200
and no adjustment factors. -/
def c2Table : List DailyRec :=
  [⟨1, 1, some 10, some 100, none⟩, ⟨1, 2, some 20, some 200, none⟩]

unseal Rat.mul Rat.inv Rat.add in
/-- Witness for C2: at the second day, ma2 is the rounded mean of the two
adjusted closes, vma2 the rounded mean of the two volumes, while ma5 is NULL
because only 2 observations exist. -/
theorem c2_moving_average_definedness_witness :
    (maSeries c2Table 1 2).get? 1 =
        some (some (round2 (([10, 20] : List ℚ).sum / (2 : ℚ)))) ∧
      (vmaSeries c2Table 1 2).get? 1 =
        some (some (round0 (([100, 200] : List ℚ).sum / (2 : ℚ)))) ∧
      (maSeries c2Table 1 5).get? 1 = some none :=
  ⟨((c2_moving_average_definedness c2Table 1 2 1 (by decide)).2 (by omega)).1
      [10, 20] (by decide),
   ((c2_moving_average_definedness c2Table 1 2 1 (by decide)).2 (by omega)).2
      [100, 200] (by decide),
   ((c2_moving_average_definedness c2Table 1 5 1 (by decide)).1 (by omega)).1⟩

/-! ## C6: the Dragon Pullback historical check
(RuleDragonPullback._check_history_conditions,
src/rules/rule_dragon_pullback.py:135-179)

A history row carries the columns the check reads when the history has the
qfq columns (the local store always provides them): qfq_收盘 and qfq_最高
(the price columns the check selects), 收盘 (the raw close column that the
calc_ma fallback averages), 成交量, and the nullable precomputed ma20, ma60
and vma5 columns. -/

structure HRow where
  qfqClose : ℚ
  qfqHigh : ℚ
  rawClose : ℚ
  volume : ℚ
  ma20 : Option ℚ
  ma60 : Option ℚ
  vma5 : Option ℚ
deriving DecidableEq

structure DragonParams where
  min4mChange : ℚ
  max1mChange : ℚ
deriving DecidableEq

/-- pandas Series.max() of a non-empty series. -/
def listMax : List ℚ → ℚ
  | [] => 0
  | x :: xs => xs.foldl max x

/-- calc_ma / calc_volume_ma fallback value: rolling(n).mean().iloc[-1], the
mean of the last n values (defined since the check requires 60 rows). -/
def meanOfLast (n : ℕ) (l : List ℚ) : ℚ :=
  (l.drop (l.length - n)).sum / (n : ℚ)

/-- The ma60 the check uses: the precomputed column when non-null, else
calc_ma(hist, 60) on the raw 收盘 column. -/
def effMa60 (h : List HRow) (latest : HRow) : ℚ :=
  match latest.ma60 with
  | some v => v
  | none => meanOfLast 60 (h.map HRow.rawClose)

/-- The ma20 the check uses. -/
def effMa20 (h : List HRow) (latest : HRow) : ℚ :=
  match latest.ma20 with
  | some v => v
  | none => meanOfLast 20 (h.map HRow.rawClose)

/-- The vma5 the check uses (calc_volume_ma(hist, 5) fallback). -/
def effVma5 (h : List HRow) (latest : HRow) : ℚ :=
  match latest.vma5 with
  | some v => v
  | none => meanOfLast 5 (h.map HRow.volume)

/-- hist[price_col].iloc[max(0, len-81)]: the adjusted close about 80
sessions back. -/
def price4mAgo (h : List HRow) : ℚ :=
  ((h.map HRow.qfqClose).get? (h.length - 81)).getD 0

/-- The trailing-21-row high (hist.iloc[max(0, len-21):][high_col].max()). -/
def max1mHigh (h : List HRow) : ℚ :=
  listMax ((h.drop (h.length - 21)).map HRow.qfqHigh)

/-- _check_history_conditions: the early-return chain of the source, as
nested conditionals. -/
def checkHistoryConditions (p : DragonParams) (h : List HRow) : Bool :=
  if h.length < 60 then false
  else
    match h.getLast? with
    | none => false
    | some latest =>
      if (if 0 < price4mAgo h then (latest.qfqClose / price4mAgo h - 1) * 100 else 0)
          < p.min4mChange then false
      else if p.max1mChange <
          (if 0 < max1mHigh h then (latest.qfqClose / max1mHigh h - 1) * 100 else 0) then
        false
      else if latest.qfqClose ≤ effMa60 h latest ∨ effMa20 h latest ≤ latest.qfqClose then
        false
      else if effMa20 h latest - latest.qfqClose ≤ latest.qfqClose - effMa60 h latest then
        false
      else if effVma5 h latest ≤ latest.volume then false
      else true

/-- Modelled from the spec's words, conditions (a)-(e) of the claim: (a) the
price rose at least min4mChange percent over the trailing ~80 sessions;
(b) the price pulled back from the trailing ~20-session high by at least the
configured percentage (the signed change is at most max1mChange, a negative
number); (c) the adjusted close lies strictly between MA60 and MA20;
(d) it is strictly closer in absolute distance to MA60 than to MA20 (under
(c) the distances are close − MA60 and MA20 − close; an equidistant
candidate does not count as closer to the support line and is rejected);
(e) the current volume is strictly below the 5-session volume average. -/
def dragonConds (p : DragonParams) (h : List HRow) (latest : HRow) : Prop :=
  (p.min4mChange ≤ (latest.qfqClose / price4mAgo h - 1) * 100) ∧
  ((latest.qfqClose / max1mHigh h - 1) * 100 ≤ p.max1mChange) ∧
  (effMa60 h latest < latest.qfqClose ∧ latest.qfqClose < effMa20 h latest) ∧
  (latest.qfqClose - effMa60 h latest < effMa20 h latest - latest.qfqClose) ∧
  (latest.volume < effVma5 h latest)

theorem foldl_max_mem (x : ℚ) (xs : List ℚ) : xs.foldl max x ∈ x :: xs := by
  induction xs generalizing x with
  | nil => simp
  | cons y ys ih =>
    rcases List.mem_cons.mp (ih (max x y)) with h | h
    · rcases max_choice x y with hm | hm <;> rw [List.foldl_cons, h, hm] <;> simp
    · exact List.mem_cons_of_mem x (List.mem_cons_of_mem y h)

theorem listMax_mem (l : List ℚ) (hl : l ≠ []) : listMax l ∈ l := by
  cases l with
  | nil => exact absurd rfl hl
  | cons x xs => exact foldl_max_mem x xs

theorem if_false_else_eq_true {A : Prop} [Decidable A] (x : Bool) :
    (if A then false else x) = true ↔ ¬A ∧ x = true := by
  split_ifs with h <;> simp [h]

theorem price4mAgo_pos (h : List HRow) (hlen : 60 ≤ h.length)
    (hpos : ∀ r ∈ h, 0 < r.qfqClose ∧ 0 < r.qfqHigh) : 0 < price4mAgo h := by
  have hidx : h.length - 81 < (h.map HRow.qfqClose).length := by
    rw [List.length_map]; omega
  rw [price4mAgo, List.get?_eq_get hidx]
  have hmem := List.get_mem (h.map HRow.qfqClose) (h.length - 81) hidx
  rcases List.mem_map.mp hmem with ⟨r, hr, hrx⟩
  rw [Option.getD_some, ← hrx]
  exact (hpos r hr).1

theorem max1mHigh_pos (h : List HRow) (hlen : 60 ≤ h.length)
    (hpos : ∀ r ∈ h, 0 < r.qfqClose ∧ 0 < r.qfqHigh) : 0 < max1mHigh h := by
  have hne : (h.drop (h.length - 21)).map HRow.qfqHigh ≠ [] := by
    intro hc
    have := congrArg List.length hc
    simp only [List.length_map, List.length_drop, List.length_nil] at this
    omega
  have hmem := listMax_mem _ hne
  rcases List.mem_map.mp hmem with ⟨r, hr, hrx⟩
  rw [max1mHigh, ← hrx]
  exact (hpos r (List.mem_of_mem_drop hr)).2

/-- C6: for a candidate with sufficient history (at least 60 rows) and
positive prices, the Dragon Pullback historical check accepts exactly when
the spec's five conditions (a)-(e) all hold. -/
theorem c6_dragon_pullback_characterization (p : DragonParams) (h : List HRow)
    (latest : HRow) (hlen : 60 ≤ h.length) (hlast : h.getLast? = some latest)
    (hpos : ∀ r ∈ h, 0 < r.qfqClose ∧ 0 < r.qfqHigh) :
    (checkHistoryConditions p h = true ↔ dragonConds p h latest) := by
  have hp4 := price4mAgo_pos h hlen hpos
  have hmx := max1mHigh_pos h hlen hpos
  rw [checkHistoryConditions, if_neg (by omega : ¬h.length < 60), hlast]
  simp only [if_pos hp4, if_pos hmx]
  rw [if_false_else_eq_true, if_false_else_eq_true, if_false_else_eq_true,
    if_false_else_eq_true, if_false_else_eq_true]
  simp only [not_lt, not_le, not_or, dragonConds, and_true]

/-- A 60-session constant history used as the concrete C6 witness input. -/
def c6Hist : List HRow := List.replicate 60 ⟨1, 1, 1, 1, none, none, none⟩

def c6Params : DragonParams := ⟨50, -10⟩

/-- Witness for C6 at the concrete 60-row history. -/
theorem c6_dragon_pullback_characterization_witness :
    checkHistoryConditions c6Params c6Hist = true ↔
      dragonConds c6Params c6Hist ⟨1, 1, 1, 1, none, none, none⟩ :=
  c6_dragon_pullback_characterization c6Params c6Hist ⟨1, 1, 1, 1, none, none, none⟩
    (by decide) (by decide) (by decide)

/-! ## C9: cooldown and re-probe behaviour of the full sync run
(run_full_sync, src/scripts/remote_sync.py:250-369)

The per-item loop is embedded as an event-trace machine.  For item index i
(0-based), when (i+1) mod HEALTH_CHECK_INTERVAL = 0 the loop calls
check_api_health; if that periodic probe fails it sleeps the cooldown and
then simply proceeds to sync the item (no re-probe).  The item sync outcome
updates consecutive_fails (reset on success, incremented on failure); when
consecutive_fails reaches MAX_CONSECUTIVE_FAILS the loop sleeps the
cooldown, resets the counter, and calls check_api_health again (the
re-probe); if that re-probe fails the loop breaks (the run aborts),
otherwise it continues.  check_api_health outcomes are an oracle indexed by
the number of probe calls made so far.  Items are their failure flags. -/

structure SyncCfg where
  healthCheckInterval : ℕ
  maxConsecutiveFails : ℕ
deriving DecidableEq

inductive SyncEvent
  | probe (ok : Bool)
  | cooldown
  | item (failed : Bool)
  | reprobe (ok : Bool)
deriving DecidableEq

/-- Events of the periodic health check at the top of one iteration: a probe
when (i+1) mod interval = 0, plus a cooldown sleep if it failed. -/
def syncProbeEvs (cfg : SyncCfg) (probe : ℕ → Bool) (i pc : ℕ) : List SyncEvent :=
  if (i + 1) % cfg.healthCheckInterval == 0 then
    if probe pc then [SyncEvent.probe true]
    else [SyncEvent.probe false, SyncEvent.cooldown]
  else []

/-- The probe-call counter after the periodic health check of iteration i. -/
def syncPc (cfg : SyncCfg) (i pc : ℕ) : ℕ :=
  if (i + 1) % cfg.healthCheckInterval == 0 then pc + 1 else pc

/-- The run_full_sync item loop: returns the event trace and whether the run
aborted (broke out after a failed post-cooldown re-probe). -/
def runFullSyncLoop (cfg : SyncCfg) (probe : ℕ → Bool) :
    List Bool → ℕ → ℕ → ℕ → List SyncEvent × Bool
  | [], _, _, _ => ([], false)
  | failed :: rest, i, cf, pc =>
    if cfg.maxConsecutiveFails ≤ (if failed then cf + 1 else 0) then
      if probe (syncPc cfg i pc) then
        (syncProbeEvs cfg probe i pc ++ SyncEvent.item failed :: SyncEvent.cooldown ::
            SyncEvent.reprobe true ::
            (runFullSyncLoop cfg probe rest (i + 1) 0 (syncPc cfg i pc + 1)).1,
         (runFullSyncLoop cfg probe rest (i + 1) 0 (syncPc cfg i pc + 1)).2)
      else
        (syncProbeEvs cfg probe i pc ++
          [SyncEvent.item failed, SyncEvent.cooldown, SyncEvent.reprobe false], true)
    else
      (syncProbeEvs cfg probe i pc ++ SyncEvent.item failed ::
          (runFullSyncLoop cfg probe rest (i + 1)
            (if failed then cf + 1 else 0) (syncPc cfg i pc)).1,
       (runFullSyncLoop cfg probe rest (i + 1)
          (if failed then cf + 1 else 0) (syncPc cfg i pc)).2)

def runFullSync (cfg : SyncCfg) (probe : ℕ → Bool) (items : List Bool) :
    List SyncEvent × Bool :=
  runFullSyncLoop cfg probe items 0 0 0

/-! Trace predicates used to state the claim. -/

def isReprobe : SyncEvent → Bool
  | SyncEvent.reprobe _ => true
  | _ => false

def isProbeFail : SyncEvent → Bool
  | SyncEvent.probe ok => !ok
  | _ => false

def headIsReprobe (l : List SyncEvent) : Bool :=
  match l.head? with
  | some e => isReprobe e
  | none => false

/-- Every failed periodic probe is immediately followed by a cooldown. -/
def probeFailCooled : List SyncEvent → Bool
  | [] => true
  | [a] => !(isProbeFail a)
  | a :: b :: rest =>
    (!(isProbeFail a) || (b == SyncEvent.cooldown)) && probeFailCooled (b :: rest)

/-- A failed re-probe is the final event of the trace: the run stops there. -/
def reprobeFailLast : List SyncEvent → Bool
  | [] => true
  | a :: rest => (!(a == SyncEvent.reprobe false) || rest.isEmpty) && reprobeFailLast rest

/-- No re-probe occurs at the first two trace positions. -/
def noEarlyReprobe (l : List SyncEvent) : Bool :=
  !(headIsReprobe l) && !(headIsReprobe l.tail)

/-- Window check: when the third event of the window is a re-probe, the two
events before it are a failed item sync and a cooldown. -/
def tripleOk : List SyncEvent → Bool
  | a :: b :: rest =>
    !(headIsReprobe rest) || (a == SyncEvent.item true && b == SyncEvent.cooldown)
  | _ => true

/-- Every re-probe in the trace is immediately preceded by a cooldown that
itself immediately follows a failed item sync (together with noEarlyReprobe:
re-probes happen only on the consecutive-failures path). -/
def reprobeCtx : List SyncEvent → Bool
  | [] => true
  | x :: xs => tripleOk (x :: xs) && reprobeCtx xs

theorem headIsReprobe_cons (a : SyncEvent) (l : List SyncEvent) :
    headIsReprobe (a :: l) = isReprobe a := rfl

theorem probeFailCooled_cons (a : SyncEvent) (ha : isProbeFail a = false)
    (l : List SyncEvent) : probeFailCooled (a :: l) = probeFailCooled l := by
  cases l <;> simp [probeFailCooled, ha]

theorem probeFailCooled_probe_false (l : List SyncEvent) :
    probeFailCooled (SyncEvent.probe false :: SyncEvent.cooldown :: l) =
      probeFailCooled (SyncEvent.cooldown :: l) := by
  simp [probeFailCooled, isProbeFail]

theorem reprobeFailLast_cons (a : SyncEvent) (ha : (a == SyncEvent.reprobe false) = false)
    (l : List SyncEvent) : reprobeFailLast (a :: l) = reprobeFailLast l := by
  simp [reprobeFailLast, ha]

theorem tripleOk_cons_cons (a b : SyncEvent) (l : List SyncEvent)
    (h : headIsReprobe l = false) : tripleOk (a :: b :: l) = true := by
  simp [tripleOk, h]

theorem tripleOk_cons (a : SyncEvent) (l : List SyncEvent)
    (h : headIsReprobe l.tail = false) : tripleOk (a :: l) = true := by
  cases l with
  | nil => rfl
  | cons b l2 => exact tripleOk_cons_cons a b l2 (by simpa using h)

theorem reprobeCtx_cons (a : SyncEvent) (l : List SyncEvent)
    (h : headIsReprobe l.tail = false) (hc : reprobeCtx l = true) :
    reprobeCtx (a :: l) = true := by
  simp only [reprobeCtx, Bool.and_eq_true]
  exact ⟨tripleOk_cons a l h, hc⟩

theorem noEarlyReprobe_parts (l : List SyncEvent) (h : noEarlyReprobe l = true) :
    headIsReprobe l = false ∧ headIsReprobe l.tail = false := by
  simp only [noEarlyReprobe, Bool.and_eq_true, Bool.not_eq_true'] at h
  exact h

theorem getLast?_cons_irrel (a e : SyncEvent) (l : List SyncEvent) (hne : a ≠ e) :
    ((a :: l).getLast? = some e ↔ l.getLast? = some e) := by
  cases l with
  | nil => simp [hne]
  | cons b l2 => rw [List.getLast?_cons_cons]

theorem probeEvs_prepend (cfg : SyncCfg) (probe : ℕ → Bool) (i pc : ℕ)
    (t : List SyncEvent) (f : Bool)
    (h1 : probeFailCooled (SyncEvent.item f :: t) = true)
    (h2 : reprobeFailLast (SyncEvent.item f :: t) = true)
    (h3 : noEarlyReprobe (SyncEvent.item f :: t) = true)
    (h4 : reprobeCtx (SyncEvent.item f :: t) = true) :
    probeFailCooled (syncProbeEvs cfg probe i pc ++ SyncEvent.item f :: t) = true ∧
    reprobeFailLast (syncProbeEvs cfg probe i pc ++ SyncEvent.item f :: t) = true ∧
    noEarlyReprobe (syncProbeEvs cfg probe i pc ++ SyncEvent.item f :: t) = true ∧
    reprobeCtx (syncProbeEvs cfg probe i pc ++ SyncEvent.item f :: t) = true ∧
    (syncProbeEvs cfg probe i pc ++ SyncEvent.item f :: t).getLast? =
      (SyncEvent.item f :: t).getLast? := by
  have hparts := noEarlyReprobe_parts _ h3
  have hpt : headIsReprobe t = false := by simpa using hparts.2
  rw [syncProbeEvs]
  by_cases hhc : ((i + 1) % cfg.healthCheckInterval == 0) = true
  · rw [if_pos hhc]
    by_cases hpp : probe pc = true
    · rw [if_pos hpp, List.singleton_append]
      refine ⟨?_, ?_, ?_, ?_, ?_⟩
      · rw [probeFailCooled_cons (SyncEvent.probe true) rfl]
        exact h1
      · rw [reprobeFailLast_cons (SyncEvent.probe true) rfl]
        exact h2
      · simp [noEarlyReprobe, headIsReprobe_cons, isReprobe, List.tail_cons]
      · exact reprobeCtx_cons _ _ (by simpa using hpt) h4
      · rw [List.getLast?_cons_cons]
    · rw [if_neg hpp]
      simp only [List.cons_append, List.nil_append]
      refine ⟨?_, ?_, ?_, ?_, ?_⟩
      · rw [probeFailCooled_probe_false, probeFailCooled_cons SyncEvent.cooldown rfl]
        exact h1
      · rw [reprobeFailLast_cons (SyncEvent.probe false) rfl,
          reprobeFailLast_cons SyncEvent.cooldown rfl]
        exact h2
      · simp [noEarlyReprobe, headIsReprobe_cons, isReprobe, List.tail_cons]
      · refine reprobeCtx_cons _ _ (by simp [headIsReprobe_cons, isReprobe]) ?_
        exact reprobeCtx_cons _ _ (by simpa using hpt) h4
      · rw [List.getLast?_cons_cons, List.getLast?_cons_cons]
  · rw [if_neg hhc, List.nil_append]
    exact ⟨h1, h2, h3, h4, rfl⟩

theorem syncBlock_thr_ok (cfg : SyncCfg) (probe : ℕ → Bool) (i pc : ℕ)
    (tail : List SyncEvent) (ab : Bool)
    (ih1 : probeFailCooled tail = true) (ih2 : reprobeFailLast tail = true)
    (ih3 : noEarlyReprobe tail = true) (ih4 : reprobeCtx tail = true)
    (ih5 : ab = true ↔ tail.getLast? = some (SyncEvent.reprobe false)) :
    probeFailCooled (syncProbeEvs cfg probe i pc ++ SyncEvent.item true ::
        SyncEvent.cooldown :: SyncEvent.reprobe true :: tail) = true ∧
    reprobeFailLast (syncProbeEvs cfg probe i pc ++ SyncEvent.item true ::
        SyncEvent.cooldown :: SyncEvent.reprobe true :: tail) = true ∧
    noEarlyReprobe (syncProbeEvs cfg probe i pc ++ SyncEvent.item true ::
        SyncEvent.cooldown :: SyncEvent.reprobe true :: tail) = true ∧
    reprobeCtx (syncProbeEvs cfg probe i pc ++ SyncEvent.item true ::
        SyncEvent.cooldown :: SyncEvent.reprobe true :: tail) = true ∧
    (ab = true ↔ (syncProbeEvs cfg probe i pc ++ SyncEvent.item true ::
        SyncEvent.cooldown :: SyncEvent.reprobe true :: tail).getLast? =
          some (SyncEvent.reprobe false)) := by
  have hp := noEarlyReprobe_parts tail ih3
  have h1 : probeFailCooled (SyncEvent.item true :: SyncEvent.cooldown ::
      SyncEvent.reprobe true :: tail) = true := by
    rw [probeFailCooled_cons (SyncEvent.item true) rfl,
      probeFailCooled_cons SyncEvent.cooldown rfl,
      probeFailCooled_cons (SyncEvent.reprobe true) rfl]
    exact ih1
  have h2 : reprobeFailLast (SyncEvent.item true :: SyncEvent.cooldown ::
      SyncEvent.reprobe true :: tail) = true := by
    rw [reprobeFailLast_cons (SyncEvent.item true) rfl,
      reprobeFailLast_cons SyncEvent.cooldown rfl,
      reprobeFailLast_cons (SyncEvent.reprobe true) rfl]
    exact ih2
  have h3 : noEarlyReprobe (SyncEvent.item true :: SyncEvent.cooldown ::
      SyncEvent.reprobe true :: tail) = true := rfl
  have h4 : reprobeCtx (SyncEvent.item true :: SyncEvent.cooldown ::
      SyncEvent.reprobe true :: tail) = true := by
    have w0 : tripleOk (SyncEvent.item true :: SyncEvent.cooldown ::
        SyncEvent.reprobe true :: tail) = true := rfl
    have w1 : tripleOk (SyncEvent.cooldown :: SyncEvent.reprobe true :: tail) = true :=
      tripleOk_cons_cons _ _ _ hp.1
    have w2 : tripleOk (SyncEvent.reprobe true :: tail) = true :=
      tripleOk_cons _ _ hp.2
    simp only [reprobeCtx, w0, w1, w2, ih4, Bool.and_self]
  obtain ⟨g1, g2, g3, g4, g5⟩ := probeEvs_prepend cfg probe i pc
    (SyncEvent.cooldown :: SyncEvent.reprobe true :: tail) true h1 h2 h3 h4
  refine ⟨g1, g2, g3, g4, ?_⟩
  rw [g5, getLast?_cons_irrel _ _ _ (by simp), getLast?_cons_irrel _ _ _ (by simp),
    getLast?_cons_irrel _ _ _ (by simp)]
  exact ih5

theorem syncBlock_nothr (cfg : SyncCfg) (probe : ℕ → Bool) (i pc : ℕ) (f : Bool)
    (tail : List SyncEvent) (ab : Bool)
    (ih1 : probeFailCooled tail = true) (ih2 : reprobeFailLast tail = true)
    (ih3 : noEarlyReprobe tail = true) (ih4 : reprobeCtx tail = true)
    (ih5 : ab = true ↔ tail.getLast? = some (SyncEvent.reprobe false)) :
    probeFailCooled (syncProbeEvs cfg probe i pc ++ SyncEvent.item f :: tail) = true ∧
    reprobeFailLast (syncProbeEvs cfg probe i pc ++ SyncEvent.item f :: tail) = true ∧
    noEarlyReprobe (syncProbeEvs cfg probe i pc ++ SyncEvent.item f :: tail) = true ∧
    reprobeCtx (syncProbeEvs cfg probe i pc ++ SyncEvent.item f :: tail) = true ∧
    (ab = true ↔ (syncProbeEvs cfg probe i pc ++
        SyncEvent.item f :: tail).getLast? = some (SyncEvent.reprobe false)) := by
  have hp := noEarlyReprobe_parts tail ih3
  have h1 : probeFailCooled (SyncEvent.item f :: tail) = true := by
    rw [probeFailCooled_cons (SyncEvent.item f) rfl]
    exact ih1
  have h2 : reprobeFailLast (SyncEvent.item f :: tail) = true := by
    rw [reprobeFailLast_cons (SyncEvent.item f) rfl]
    exact ih2
  have h3 : noEarlyReprobe (SyncEvent.item f :: tail) = true := by
    simp only [noEarlyReprobe, List.tail_cons, headIsReprobe_cons, hp.1]
    rfl
  have h4 : reprobeCtx (SyncEvent.item f :: tail) = true :=
    reprobeCtx_cons _ _ hp.2 ih4
  obtain ⟨g1, g2, g3, g4, g5⟩ := probeEvs_prepend cfg probe i pc tail f h1 h2 h3 h4
  refine ⟨g1, g2, g3, g4, ?_⟩
  rw [g5, getLast?_cons_irrel _ _ _ (by simp)]
  exact ih5

theorem syncLoop_ok (cfg : SyncCfg) (probe : ℕ → Bool)
    (hmax : 1 ≤ cfg.maxConsecutiveFails) :
    ∀ (items : List Bool) (i cf pc : ℕ),
      probeFailCooled (runFullSyncLoop cfg probe items i cf pc).1 = true ∧
      reprobeFailLast (runFullSyncLoop cfg probe items i cf pc).1 = true ∧
      noEarlyReprobe (runFullSyncLoop cfg probe items i cf pc).1 = true ∧
      reprobeCtx (runFullSyncLoop cfg probe items i cf pc).1 = true ∧
      ((runFullSyncLoop cfg probe items i cf pc).2 = true ↔
        (runFullSyncLoop cfg probe items i cf pc).1.getLast? =
          some (SyncEvent.reprobe false)) := by
  intro items
  induction items with
  | nil =>
    intro i cf pc
    exact ⟨rfl, rfl, rfl, rfl, by simp [runFullSyncLoop]⟩
  | cons failed rest ih =>
    intro i cf pc
    by_cases hth : cfg.maxConsecutiveFails ≤ (if failed then cf + 1 else 0)
    · have hfail : failed = true := by
        cases failed
        · simp only [if_neg Bool.false_ne_true, Nat.le_zero] at hth
          omega
        · rfl
      subst hfail
      have hth' : cfg.maxConsecutiveFails ≤ cf + 1 := by simpa using hth
      by_cases hok : probe (syncPc cfg i pc) = true
      · have hrun : runFullSyncLoop cfg probe (true :: rest) i cf pc =
            (syncProbeEvs cfg probe i pc ++ SyncEvent.item true :: SyncEvent.cooldown ::
                SyncEvent.reprobe true ::
                (runFullSyncLoop cfg probe rest (i + 1) 0 (syncPc cfg i pc + 1)).1,
             (runFullSyncLoop cfg probe rest (i + 1) 0 (syncPc cfg i pc + 1)).2) := by
          simp only [runFullSyncLoop, if_true]
          rw [if_pos hth', if_pos hok]
        rw [hrun]
        obtain ⟨ih1, ih2, ih3, ih4, ih5⟩ := ih (i + 1) 0 (syncPc cfg i pc + 1)
        exact syncBlock_thr_ok cfg probe i pc _ _ ih1 ih2 ih3 ih4 ih5
      · have hrun : runFullSyncLoop cfg probe (true :: rest) i cf pc =
            (syncProbeEvs cfg probe i pc ++
              [SyncEvent.item true, SyncEvent.cooldown, SyncEvent.reprobe false],
             true) := by
          simp only [runFullSyncLoop, if_true]
          rw [if_pos hth', if_neg hok]
        rw [hrun]
        obtain ⟨g1, g2, g3, g4, g5⟩ := probeEvs_prepend cfg probe i pc
          [SyncEvent.cooldown, SyncEvent.reprobe false] true
          (by decide) (by decide) (by decide) (by decide)
        refine ⟨g1, g2, g3, g4, ?_⟩
        rw [g5]
        exact ⟨fun _ => by decide, fun _ => rfl⟩
    · have hrun : runFullSyncLoop cfg probe (failed :: rest) i cf pc =
          (syncProbeEvs cfg probe i pc ++ SyncEvent.item failed ::
              (runFullSyncLoop cfg probe rest (i + 1)
                (if failed then cf + 1 else 0) (syncPc cfg i pc)).1,
           (runFullSyncLoop cfg probe rest (i + 1)
              (if failed then cf + 1 else 0) (syncPc cfg i pc)).2) := by
        simp only [runFullSyncLoop]
        rw [if_neg hth]
      rw [hrun]
      obtain ⟨ih1, ih2, ih3, ih4, ih5⟩ :=
        ih (i + 1) (if failed then cf + 1 else 0) (syncPc cfg i pc)
      exact syncBlock_nothr cfg probe i pc failed _ _ ih1 ih2 ih3 ih4 ih5

/-- A configuration probing health on every item with failure threshold 5
(the source constants are interval 100, threshold 5; interval 1 makes the
periodic probe fire on the first item). -/
def c9Cfg : SyncCfg := ⟨1, 5⟩

/-- A remote source whose health probe always fails. -/
def c9ProbeDown : ℕ → Bool := fun _ => false

/-- Counterexample for C9: one successfully synced item with an
always-failing health probe.  The periodic probe fails, the run sleeps the
cooldown, and then resumes (syncs the item) without any re-probe, and the
run completes without aborting or reporting failure — contradicting the
claim that a failed periodic probe is followed by a re-probe, with the run
aborting when probing keeps failing. -/
theorem c9_probe_counterexample :
    (runFullSync c9Cfg c9ProbeDown [false]).1 =
      [SyncEvent.probe false, SyncEvent.cooldown, SyncEvent.item false] ∧
    (runFullSync c9Cfg c9ProbeDown [false]).2 = false := by
  constructor
  · rfl
  · rfl

/-- C9 (amended): during a full sync run, a failed periodic health probe is
immediately followed by a cooldown sleep after which the run resumes without
re-probing; the cooldown-then-re-probe cycle belongs to the
consecutive-failures path — every re-probe is immediately preceded by a
cooldown that follows a failed item sync (and never occurs in the first two
events) — a failed re-probe is the final event of the trace, and the run
aborts exactly when a post-cooldown re-probe fails. -/
theorem c9_cooldown_reprobe_amended (cfg : SyncCfg) (probe : ℕ → Bool)
    (items : List Bool) (hmax : 1 ≤ cfg.maxConsecutiveFails) :
    probeFailCooled (runFullSync cfg probe items).1 = true ∧
    reprobeFailLast (runFullSync cfg probe items).1 = true ∧
    noEarlyReprobe (runFullSync cfg probe items).1 = true ∧
    reprobeCtx (runFullSync cfg probe items).1 = true ∧
    ((runFullSync cfg probe items).2 = true ↔
      (runFullSync cfg probe items).1.getLast? = some (SyncEvent.reprobe false)) :=
  syncLoop_ok cfg probe hmax items 0 0 0

/-- A healthy remote source. -/
def c9ProbeUp : ℕ → Bool := fun _ => true

/-- Witness for C9 (amended) at interval 2, threshold 2, two failing items
and a healthy probe: the threshold is reached, a cooldown and successful
re-probe occur, and the run completes. -/
theorem c9_cooldown_reprobe_amended_witness :
    probeFailCooled (runFullSync ⟨2, 2⟩ c9ProbeUp [true, true]).1 = true ∧
    reprobeFailLast (runFullSync ⟨2, 2⟩ c9ProbeUp [true, true]).1 = true ∧
    noEarlyReprobe (runFullSync ⟨2, 2⟩ c9ProbeUp [true, true]).1 = true ∧
    reprobeCtx (runFullSync ⟨2, 2⟩ c9ProbeUp [true, true]).1 = true ∧
    ((runFullSync ⟨2, 2⟩ c9ProbeUp [true, true]).2 = true ↔
      (runFullSync ⟨2, 2⟩ c9ProbeUp [true, true]).1.getLast? =
        some (SyncEvent.reprobe false)) :=
  c9_cooldown_reprobe_amended ⟨2, 2⟩ c9ProbeUp [true, true] (by decide)
